import Mathlib

/-!
Verification of `src/tools/expected_value_variance.py`.

The Python module computes descriptive statistics (expected value, variance,
standard deviation, skewness, kurtosis) of a discrete probability
distribution given as a dict `{value: probability}`.

Embedding choices:
* a dict is modelled as the list of its key-value pairs (`.items()`);
* Python floats are idealised as exact rationals (and reals where a square
  root appears); the tolerance `1e-6` becomes the rational `1/1000000`;
* `raise ValueError(...)` becomes `Except.error` carrying the computed sum
  of the probabilities, exactly the datum interpolated into the Python
  message `f"Probabilities must sum to 1, got {...}"`;
* `v ** 0.5` is modelled as `Real.sqrt v` (the real-power semantics; for
  negative `v`, where CPython produces a complex number instead of raising,
  `Real.sqrt` returns the junk value `0` — no claim depends on the numeric
  value produced there, only on the absence of an error).
-/

namespace EVV

/-- A discrete distribution: the dict `{value: probability}` of the Python
module, modelled as its list of items. -/
abbrev Dist : Type := List (ℚ × ℚ)

/-- The error raised by the validation check (a `ValueError` in the source,
named `InvalidDistributionError` by the spec).  It carries the computed sum
of the probability values. -/
structure InvalidDistributionError where
  sum : ℚ
  deriving DecidableEq

/-- The validation tolerance `1e-6` appearing in the source. -/
def tol : ℚ := 1 / 1000000

/-- Python `sum(distribution.values())`. -/
def sumProbs (d : Dist) : ℚ := (List.map Prod.snd d).sum

/-- Python `sum(x * p for x, p in distribution.items())`. -/
def evSum (d : Dist) : ℚ := (List.map (fun kv => kv.1 * kv.2) d).sum

/-- Python `sum(x**2 * p for x, p in distribution.items())`. -/
def ex2Sum (d : Dist) : ℚ := (List.map (fun kv => kv.1 ^ 2 * kv.2) d).sum

/-- Python `sum(((x - mu) ** 3) * p for x, p in distribution.items())`. -/
def thirdMomentSum (d : Dist) (mu : ℚ) : ℚ :=
  (List.map (fun kv => (kv.1 - mu) ^ 3 * kv.2) d).sum

/-- Python `sum(((x - mu) ** 4) * p for x, p in distribution.items())`. -/
def fourthMomentSum (d : Dist) (mu : ℚ) : ℚ :=
  (List.map (fun kv => (kv.1 - mu) ^ 4 * kv.2) d).sum

/-- Source `expected_value`: validates that the probabilities sum to 1
within `1e-6`, then returns `Σ x·p`. -/
def expected_value (d : Dist) : Except InvalidDistributionError ℚ :=
  if |sumProbs d - 1| > tol then .error ⟨sumProbs d⟩
  else .ok (evSum d)

/-- Source `variance`: validates, then computes `E[X²] - (E[X])²`, obtaining
`E[X]` by a call to `expected_value` (whose re-raised error would
propagate, hence the `match`). -/
def variance (d : Dist) : Except InvalidDistributionError ℚ :=
  if |sumProbs d - 1| > tol then .error ⟨sumProbs d⟩
  else
    match expected_value d with
    | .error e => .error e
    | .ok m => .ok (ex2Sum d - m ^ 2)

/-- Source `standard_deviation`: `variance(distribution) ** 0.5`.  Note the
source performs no validation of its own here; an invalid distribution is
rejected by the inner call to `variance`, whose error propagates. -/
noncomputable def standard_deviation (d : Dist) :
    Except InvalidDistributionError ℝ :=
  match variance d with
  | .error e => .error e
  | .ok v => .ok (Real.sqrt v)

/-- Source `skewness`: validates, computes `mu` and `sigma`, returns `0.0`
when `sigma == 0`, else `E[(X-mu)³] / sigma³`. -/
noncomputable def skewness (d : Dist) : Except InvalidDistributionError ℝ :=
  if |sumProbs d - 1| > tol then .error ⟨sumProbs d⟩
  else
    match expected_value d with
    | .error e => .error e
    | .ok mu =>
      match standard_deviation d with
      | .error e => .error e
      | .ok sigma =>
        if sigma = 0 then .ok 0
        else .ok ((thirdMomentSum d mu : ℝ) / sigma ^ 3)

/-- Source `kurtosis`: validates, computes `mu` and `sigma`, returns `0.0`
when `sigma == 0`, else `E[(X-mu)⁴] / sigma⁴` (raw kurtosis, no `- 3`). -/
noncomputable def kurtosis (d : Dist) : Except InvalidDistributionError ℝ :=
  if |sumProbs d - 1| > tol then .error ⟨sumProbs d⟩
  else
    match expected_value d with
    | .error e => .error e
    | .ok mu =>
      match standard_deviation d with
      | .error e => .error e
      | .ok sigma =>
        if sigma = 0 then .ok 0
        else .ok ((fourthMomentSum d mu : ℝ) / sigma ^ 4)

/-- The demonstration distribution built by `main`: a fair six-sided die. -/
def dieDist : Dist :=
  [(1, 1/6), (2, 1/6), (3, 1/6), (4, 1/6), (5, 1/6), (6, 1/6)]

/-! Basic evaluation lemmas for valid distributions. -/

theorem expected_value_of_valid {d : Dist} (h : |sumProbs d - 1| ≤ tol) :
    expected_value d = .ok (evSum d) := by
  simp [expected_value, not_lt.mpr h]

theorem variance_of_valid {d : Dist} (h : |sumProbs d - 1| ≤ tol) :
    variance d = .ok (ex2Sum d - evSum d ^ 2) := by
  simp [variance, expected_value, not_lt.mpr h]

theorem standard_deviation_of_valid {d : Dist} (h : |sumProbs d - 1| ≤ tol) :
    standard_deviation d = .ok (Real.sqrt ((ex2Sum d - evSum d ^ 2 : ℚ) : ℝ)) := by
  unfold standard_deviation
  rw [variance_of_valid h]

theorem skewness_of_valid {d : Dist} (h : |sumProbs d - 1| ≤ tol) :
    skewness d =
      .ok (if Real.sqrt ((ex2Sum d - evSum d ^ 2 : ℚ) : ℝ) = 0 then 0
        else (thirdMomentSum d (evSum d) : ℝ) /
          Real.sqrt ((ex2Sum d - evSum d ^ 2 : ℚ) : ℝ) ^ 3) := by
  unfold skewness
  rw [if_neg (not_lt.mpr h), expected_value_of_valid h, standard_deviation_of_valid h]
  exact (apply_ite Except.ok _ _ _).symm

theorem kurtosis_of_valid {d : Dist} (h : |sumProbs d - 1| ≤ tol) :
    kurtosis d =
      .ok (if Real.sqrt ((ex2Sum d - evSum d ^ 2 : ℚ) : ℝ) = 0 then 0
        else (fourthMomentSum d (evSum d) : ℝ) /
          Real.sqrt ((ex2Sum d - evSum d ^ 2 : ℚ) : ℝ) ^ 4) := by
  unfold kurtosis
  rw [if_neg (not_lt.mpr h), expected_value_of_valid h, standard_deviation_of_valid h]
  exact (apply_ite Except.ok _ _ _).symm

/-! Claim theorems. -/

/-- C1.  If the probability values of a distribution sum to `s` with
`|s - 1| > 1e-6`, every one of the five public operations fails with the
validation error carrying `s`.  (`standard_deviation` surfaces the error
raised inside its call to `variance`; the other four check at entry.) -/
theorem claim1_invalid_sum_all_fail {d : Dist} (h : |sumProbs d - 1| > tol) :
    expected_value d = .error ⟨sumProbs d⟩ ∧
    variance d = .error ⟨sumProbs d⟩ ∧
    standard_deviation d = .error ⟨sumProbs d⟩ ∧
    skewness d = .error ⟨sumProbs d⟩ ∧
    kurtosis d = .error ⟨sumProbs d⟩ := by
  refine ⟨?_, ?_, ?_, ?_, ?_⟩
  · unfold expected_value
    rw [if_pos h]
  · unfold variance
    rw [if_pos h]
  · unfold standard_deviation variance
    rw [if_pos h]
  · unfold skewness
    rw [if_pos h]
  · unfold kurtosis
    rw [if_pos h]

/-- C1 witness: the distribution `{1: 1.01}` has probability sum `1.01`,
violating the tolerance, and all five operations fail with the error
reporting that sum. -/
theorem claim1_witness :
    |sumProbs [((1 : ℚ), (101/100 : ℚ))] - 1| > tol ∧
    expected_value [((1 : ℚ), (101/100 : ℚ))] = .error ⟨101/100⟩ ∧
    variance [((1 : ℚ), (101/100 : ℚ))] = .error ⟨101/100⟩ ∧
    standard_deviation [((1 : ℚ), (101/100 : ℚ))] = .error ⟨101/100⟩ ∧
    skewness [((1 : ℚ), (101/100 : ℚ))] = .error ⟨101/100⟩ ∧
    kurtosis [((1 : ℚ), (101/100 : ℚ))] = .error ⟨101/100⟩ := by
  have hs : sumProbs [((1 : ℚ), (101/100 : ℚ))] = 101/100 := by
    simp [sumProbs]
  have h : |sumProbs [((1 : ℚ), (101/100 : ℚ))] - 1| > tol := by
    rw [hs, abs_of_pos (show (0:ℚ) < 101/100 - 1 by norm_num)]
    norm_num [tol]
  have := claim1_invalid_sum_all_fail h
  rw [hs] at this
  exact ⟨h, this⟩

/-- C2.  For a distribution whose probabilities sum to 1 within the `1e-6`
tolerance, `expected_value` returns `Σ x·p` over the items.  (Determinism
is inherent: the embedding is a function of the input.) -/
theorem claim2_expected_value_formula {d : Dist} (h : |sumProbs d - 1| ≤ tol) :
    expected_value d = .ok ((List.map (fun kv => kv.1 * kv.2) d).sum) :=
  expected_value_of_valid h

/-- C2 witness at the distribution `{1: 1/2, 3: 1/2}`. -/
theorem claim2_witness :
    |sumProbs [((1 : ℚ), (1/2 : ℚ)), (3, 1/2)] - 1| ≤ tol ∧
    expected_value [((1 : ℚ), (1/2 : ℚ)), (3, 1/2)] = .ok 2 := by
  constructor
  · norm_num [sumProbs, tol]
  · rw [claim2_expected_value_formula (by norm_num [sumProbs, tol])]
    norm_num

/-- C3.  For a valid distribution, `variance` returns `E[X²] - (E[X])²`,
where `E[X]` is the value produced by the call to `expected_value` and
`E[X²]` is the independent sum `Σ x²·p`. -/
theorem claim3_variance_formula {d : Dist} (h : |sumProbs d - 1| ≤ tol) :
    ∃ m : ℚ, expected_value d = .ok m ∧
      variance d = .ok ((List.map (fun kv => kv.1 ^ 2 * kv.2) d).sum - m ^ 2) :=
  ⟨evSum d, expected_value_of_valid h, variance_of_valid h⟩

/-- C3 witness at the distribution `{0: 1/2, 2: 1/2}`:
`E[X] = 1`, `E[X²] = 2`, variance `= 1`. -/
theorem claim3_witness :
    |sumProbs [((0 : ℚ), (1/2 : ℚ)), (2, 1/2)] - 1| ≤ tol ∧
    variance [((0 : ℚ), (1/2 : ℚ)), (2, 1/2)] = .ok 1 := by
  constructor
  · norm_num [sumProbs, tol]
  · obtain ⟨m, hm, hv⟩ := claim3_variance_formula
      (d := [((0 : ℚ), (1/2 : ℚ)), (2, 1/2)]) (by norm_num [sumProbs, tol])
    have : m = 1 := by
      rw [expected_value_of_valid (by norm_num [sumProbs, tol])] at hm
      simpa [evSum] using hm.symm
    rw [hv, this]
    norm_num

/-! Helper lemmas about the summations, by induction on the item list. -/

theorem sumProbs_map_fst (f : ℚ × ℚ → ℚ) (d : Dist) :
    sumProbs (List.map (fun kv => (f kv, kv.2)) d) = sumProbs d := by
  induction d with
  | nil => rfl
  | cons kv tl ih =>
      simp only [sumProbs, List.map_cons, List.sum_cons] at ih ⊢
      rw [ih]

theorem evSum_map_fst (f : ℚ × ℚ → ℚ) (d : Dist) :
    evSum (List.map (fun kv => (f kv, kv.2)) d) =
      (List.map (fun kv => f kv * kv.2) d).sum := by
  induction d with
  | nil => rfl
  | cons kv tl ih =>
      simp only [evSum, List.map_cons, List.sum_cons] at ih ⊢
      rw [ih]

/-- C4.  For a valid distribution whose standard deviation is exactly `0`,
both `skewness` and `kurtosis` return `0.0` (through the explicit
`sigma == 0` branch) instead of dividing by zero, and neither errors. -/
theorem claim4_zero_sigma_policy {d : Dist} (h : |sumProbs d - 1| ≤ tol)
    (h0 : standard_deviation d = .ok 0) :
    skewness d = .ok 0 ∧ kurtosis d = .ok 0 := by
  have hs : Real.sqrt ((ex2Sum d - evSum d ^ 2 : ℚ) : ℝ) = 0 := by
    have := (standard_deviation_of_valid h).symm.trans h0
    exact Except.ok.inj this
  rw [skewness_of_valid h, kurtosis_of_valid h, if_pos hs, if_pos hs]
  exact ⟨rfl, rfl⟩

/-- C4 witness at the degenerate distribution `{5: 1.0}`, whose standard
deviation is exactly `0`. -/
theorem claim4_witness :
    skewness [((5 : ℚ), (1 : ℚ))] = .ok 0 ∧
    kurtosis [((5 : ℚ), (1 : ℚ))] = .ok 0 := by
  have hval : |sumProbs [((5 : ℚ), (1 : ℚ))] - 1| ≤ tol := by
    norm_num [sumProbs, tol]
  have h0 : standard_deviation [((5 : ℚ), (1 : ℚ))] = .ok 0 := by
    rw [standard_deviation_of_valid hval]
    norm_num [ex2Sum, evSum, Real.sqrt_zero]
  exact claim4_zero_sigma_policy hval h0

/-- C5.  On the fair six-sided die of `main`, `expected_value` returns
`3.5`, `variance` returns `35/12`, `standard_deviation` returns a value
within `1e-4` of `1.7078`, `skewness` returns `0.0`, and `kurtosis`
returns a value within `1e-4` of `1.7314` (raw kurtosis: the exact value
is `303/175 ≈ 1.73143`, with no subtraction of 3). -/
theorem claim5_die_statistics :
    expected_value dieDist = .ok (7/2) ∧
    variance dieDist = .ok (35/12) ∧
    (∃ s : ℝ, standard_deviation dieDist = .ok s ∧ |s - 1.7078| < 1/10000) ∧
    skewness dieDist = .ok 0 ∧
    (∃ k : ℝ, kurtosis dieDist = .ok k ∧ |k - 1.7314| < 1/10000) := by
  have hval : |sumProbs dieDist - 1| ≤ tol := by
    norm_num [sumProbs, dieDist, tol]
  have hev : evSum dieDist = 7/2 := by norm_num [evSum, dieDist]
  have hvar : ex2Sum dieDist - evSum dieDist ^ 2 = 35/12 := by
    norm_num [ex2Sum, evSum, dieDist]
  have hcast : ((ex2Sum dieDist - evSum dieDist ^ 2 : ℚ) : ℝ) = 35/12 := by
    rw [hvar]; norm_num
  have hsqrt_lo : (1.7078 : ℝ) < Real.sqrt (35/12) := by
    rw [Real.lt_sqrt (by norm_num)]; norm_num
  have hsqrt_hi : Real.sqrt (35/12) < (1.7079 : ℝ) := by
    rw [Real.sqrt_lt' (by norm_num)]; norm_num
  have hσne : Real.sqrt ((ex2Sum dieDist - evSum dieDist ^ 2 : ℚ) : ℝ) ≠ 0 := by
    rw [hcast, Real.sqrt_ne_zero']; norm_num
  refine ⟨?_, ?_, ?_, ?_, ?_⟩
  · rw [expected_value_of_valid hval, hev]
  · rw [variance_of_valid hval, hvar]
  · refine ⟨Real.sqrt ((ex2Sum dieDist - evSum dieDist ^ 2 : ℚ) : ℝ),
      standard_deviation_of_valid hval, ?_⟩
    rw [hcast, abs_lt]
    constructor <;> nlinarith
  · rw [skewness_of_valid hval, if_neg hσne]
    have h3 : thirdMomentSum dieDist (evSum dieDist) = 0 := by
      rw [hev]; norm_num [thirdMomentSum, dieDist]
    rw [h3]
    norm_num
  · refine ⟨(fourthMomentSum dieDist (evSum dieDist) : ℝ) /
      Real.sqrt ((ex2Sum dieDist - evSum dieDist ^ 2 : ℚ) : ℝ) ^ 4, ?_, ?_⟩
    · rw [kurtosis_of_valid hval, if_neg hσne]
    · have h4 : fourthMomentSum dieDist (evSum dieDist) = 707/48 := by
        rw [hev]; norm_num [fourthMomentSum, dieDist]
      have hσ4 : Real.sqrt ((ex2Sum dieDist - evSum dieDist ^ 2 : ℚ) : ℝ) ^ 4
          = (35/12) ^ 2 := by
        rw [hcast, show (4 : ℕ) = 2 * 2 from rfl, pow_mul,
          Real.sq_sqrt (by norm_num : (0:ℝ) ≤ 35/12)]
      rw [h4, hσ4]
      rw [abs_lt]
      constructor <;> norm_num

/-- C6.  On the degenerate distribution `{5: 1.0}` all five operations
succeed: expected value `5`, variance `0`, standard deviation `0`,
skewness `0.0` and kurtosis `0.0`, with no division by zero. -/
theorem claim6_degenerate :
    expected_value [((5 : ℚ), (1 : ℚ))] = .ok 5 ∧
    variance [((5 : ℚ), (1 : ℚ))] = .ok 0 ∧
    standard_deviation [((5 : ℚ), (1 : ℚ))] = .ok 0 ∧
    skewness [((5 : ℚ), (1 : ℚ))] = .ok 0 ∧
    kurtosis [((5 : ℚ), (1 : ℚ))] = .ok 0 := by
  have hval : |sumProbs [((5 : ℚ), (1 : ℚ))] - 1| ≤ tol := by
    norm_num [sumProbs, tol]
  have hσ : Real.sqrt ((ex2Sum [((5 : ℚ), (1 : ℚ))] -
      evSum [((5 : ℚ), (1 : ℚ))] ^ 2 : ℚ) : ℝ) = 0 := by
    norm_num [ex2Sum, evSum, Real.sqrt_zero]
  refine ⟨?_, ?_, ?_, ?_, ?_⟩
  · rw [expected_value_of_valid hval]; norm_num [evSum]
  · rw [variance_of_valid hval]; norm_num [ex2Sum, evSum]
  · rw [standard_deviation_of_valid hval, hσ]
  · rw [skewness_of_valid hval, if_pos hσ]
  · rw [kurtosis_of_valid hval, if_pos hσ]

theorem centered_sq_sum (d : Dist) (m : ℚ) :
    (List.map (fun kv => (kv.1 - m) ^ 2 * kv.2) d).sum
      = ex2Sum d - 2 * m * evSum d + m ^ 2 * sumProbs d := by
  induction d with
  | nil => simp [ex2Sum, evSum, sumProbs]
  | cons kv tl ih =>
      simp only [ex2Sum, evSum, sumProbs, List.map_cons, List.sum_cons] at ih ⊢
      rw [ih]; ring

/-- C7.  For a distribution whose probabilities sum to 1, the variance
returned by `variance` agrees exactly with the expected value of the
pushed-forward distribution sending `(x - mu)²` to `p` for each item
`(x, p)` (with `mu` the value returned by `expected_value`): the direct
`E[X²] - E[X]²` formula agrees with the moment-based formula.  In the
exact-arithmetic idealisation "within floating-point tolerance" is exact
equality. -/
theorem claim7_variance_consistency {d : Dist} (h : sumProbs d = 1) :
    ∃ m : ℚ, expected_value d = .ok m ∧
      expected_value (List.map (fun kv => ((kv.1 - m) ^ 2, kv.2)) d)
        = variance d := by
  have hval : |sumProbs d - 1| ≤ tol := by rw [h]; norm_num [tol]
  refine ⟨evSum d, expected_value_of_valid hval, ?_⟩
  have hval2 : |sumProbs (List.map
      (fun kv => ((kv.1 - evSum d) ^ 2, kv.2)) d) - 1| ≤ tol := by
    rw [sumProbs_map_fst, h]; norm_num [tol]
  rw [expected_value_of_valid hval2, variance_of_valid hval]
  rw [evSum_map_fst, centered_sq_sum, h]
  ring_nf

/-- C7 witness at the distribution `{0: 1/2, 2: 1/2}`. -/
theorem claim7_witness :
    sumProbs [((0 : ℚ), (1/2 : ℚ)), (2, 1/2)] = 1 ∧
    ∃ m : ℚ, expected_value [((0 : ℚ), (1/2 : ℚ)), (2, 1/2)] = .ok m ∧
      expected_value (List.map (fun kv => ((kv.1 - m) ^ 2, kv.2))
          [((0 : ℚ), (1/2 : ℚ)), (2, 1/2)])
        = variance [((0 : ℚ), (1/2 : ℚ)), (2, 1/2)] := by
  constructor
  · norm_num [sumProbs]
  · exact claim7_variance_consistency (by norm_num [sumProbs])

/-- The distribution `{0: -0.5, 1: 1.5}`: its probability values sum to 1
exactly but one of them is negative. -/
def negProbDist : Dist := [(0, -1/2), (1, 3/2)]

/-- C10.  The validation only checks the probability sum, not sign: on
`{0: -0.5, 1: 1.5}` (negative probability, sum exactly 1) all five public
operations succeed and return a value, raising no error. -/
theorem claim10_no_nonnegativity_check :
    (∃ kv ∈ negProbDist, kv.2 < 0) ∧ sumProbs negProbDist = 1 ∧
    (∃ a : ℚ, expected_value negProbDist = .ok a) ∧
    (∃ b : ℚ, variance negProbDist = .ok b) ∧
    (∃ s : ℝ, standard_deviation negProbDist = .ok s) ∧
    (∃ u : ℝ, skewness negProbDist = .ok u) ∧
    (∃ w : ℝ, kurtosis negProbDist = .ok w) := by
  have hval : |sumProbs negProbDist - 1| ≤ tol := by
    norm_num [sumProbs, negProbDist, tol]
  exact ⟨⟨(0, -1/2), by norm_num [negProbDist], by norm_num⟩,
    by norm_num [sumProbs, negProbDist],
    ⟨_, expected_value_of_valid hval⟩,
    ⟨_, variance_of_valid hval⟩,
    ⟨_, standard_deviation_of_valid hval⟩,
    ⟨_, skewness_of_valid hval⟩,
    ⟨_, kurtosis_of_valid hval⟩⟩

/-! Scaling lemmas: every value multiplied by a constant `c`,
probabilities unchanged. -/

theorem sumProbs_scale (c : ℚ) (d : Dist) :
    sumProbs (List.map (fun kv => (c * kv.1, kv.2)) d) = sumProbs d :=
  sumProbs_map_fst _ d

theorem evSum_scale (c : ℚ) (d : Dist) :
    evSum (List.map (fun kv => (c * kv.1, kv.2)) d) = c * evSum d := by
  induction d with
  | nil => simp [evSum]
  | cons kv tl ih =>
      simp only [evSum, List.map_cons, List.sum_cons] at ih ⊢
      rw [ih]; ring

theorem ex2Sum_scale (c : ℚ) (d : Dist) :
    ex2Sum (List.map (fun kv => (c * kv.1, kv.2)) d) = c ^ 2 * ex2Sum d := by
  induction d with
  | nil => simp [ex2Sum]
  | cons kv tl ih =>
      simp only [ex2Sum, List.map_cons, List.sum_cons] at ih ⊢
      rw [ih]; ring

theorem thirdMomentSum_scale (c m : ℚ) (d : Dist) :
    thirdMomentSum (List.map (fun kv => (c * kv.1, kv.2)) d) (c * m)
      = c ^ 3 * thirdMomentSum d m := by
  induction d with
  | nil => simp [thirdMomentSum]
  | cons kv tl ih =>
      simp only [thirdMomentSum, List.map_cons, List.sum_cons] at ih ⊢
      rw [ih]; ring

theorem fourthMomentSum_scale (c m : ℚ) (d : Dist) :
    fourthMomentSum (List.map (fun kv => (c * kv.1, kv.2)) d) (c * m)
      = c ^ 4 * fourthMomentSum d m := by
  induction d with
  | nil => simp [fourthMomentSum]
  | cons kv tl ih =>
      simp only [fourthMomentSum, List.map_cons, List.sum_cons] at ih ⊢
      rw [ih]; ring

/-- An asymmetric distribution `{0: 3/4, 2: 1/4}` (positive skewness),
used to refute scale-invariance of skewness under negative constants. -/
def skewedDist : Dist := [(0, 3/4), (2, 1/4)]

/-- C8 counterexample.  The claim asserts skewness is unchanged when all
values are multiplied by ANY nonzero constant; at `c = -1` on the
distribution `{0: 3/4, 2: 1/4}` the skewness flips sign
(`+√(4/3)` becomes `-√(4/3)`), so the claim as stated is false. -/
theorem claim8_counterexample :
    skewness (List.map (fun kv => ((-1 : ℚ) * kv.1, kv.2)) skewedDist)
      ≠ skewness skewedDist := by
  intro hEq
  have hval1 : |sumProbs (List.map (fun kv => ((-1 : ℚ) * kv.1, kv.2))
      skewedDist) - 1| ≤ tol := by
    rw [sumProbs_scale]; norm_num [sumProbs, skewedDist, tol]
  have hval2 : |sumProbs skewedDist - 1| ≤ tol := by
    norm_num [sumProbs, skewedDist, tol]
  rw [skewness_of_valid hval1, skewness_of_valid hval2] at hEq
  have hv1 : ((ex2Sum (List.map (fun kv => ((-1 : ℚ) * kv.1, kv.2)) skewedDist)
      - evSum (List.map (fun kv => ((-1 : ℚ) * kv.1, kv.2)) skewedDist) ^ 2
      : ℚ) : ℝ) = 3/4 := by
    norm_num [ex2Sum, evSum, skewedDist]
  have hv2 : ((ex2Sum skewedDist - evSum skewedDist ^ 2 : ℚ) : ℝ) = 3/4 := by
    norm_num [ex2Sum, evSum, skewedDist]
  have hσpos : (0 : ℝ) < Real.sqrt (3/4) := Real.sqrt_pos.mpr (by norm_num)
  have hσne : Real.sqrt (3/4) ≠ 0 := ne_of_gt hσpos
  rw [hv1, hv2, if_neg hσne, if_neg hσne] at hEq
  have h3 : thirdMomentSum (List.map (fun kv => ((-1 : ℚ) * kv.1, kv.2))
      skewedDist) (evSum (List.map (fun kv => ((-1 : ℚ) * kv.1, kv.2))
      skewedDist)) = -(3/4) := by
    norm_num [thirdMomentSum, evSum, skewedDist]
  have h4 : thirdMomentSum skewedDist (evSum skewedDist) = 3/4 := by
    norm_num [thirdMomentSum, evSum, skewedDist]
  rw [h3, h4] at hEq
  have heq2 := Except.ok.inj hEq
  have hσ3 : (0 : ℝ) < Real.sqrt (3/4) ^ 3 := by positivity
  rw [div_eq_div_iff (ne_of_gt hσ3) (ne_of_gt hσ3)] at heq2
  push_cast at heq2
  nlinarith [hσ3]

/-- C8, amended.  For a valid distribution whose values are all multiplied
by a nonzero constant `c` (probabilities unchanged): variance scales by
`c²`, standard deviation scales by `|c|`, kurtosis is unchanged for every
nonzero `c`, and skewness is unchanged for every POSITIVE `c` (a negative
`c` negates it, per the counterexample). -/
theorem claim8_scaling_amended {d : Dist} {c : ℚ}
    (h : |sumProbs d - 1| ≤ tol) (hc : c ≠ 0) :
    ∃ v : ℚ, ∃ s : ℝ,
      variance d = .ok v ∧
      variance (List.map (fun kv => (c * kv.1, kv.2)) d) = .ok (c ^ 2 * v) ∧
      standard_deviation d = .ok s ∧
      standard_deviation (List.map (fun kv => (c * kv.1, kv.2)) d)
        = .ok (|(c : ℝ)| * s) ∧
      kurtosis (List.map (fun kv => (c * kv.1, kv.2)) d) = kurtosis d ∧
      (0 < c → skewness (List.map (fun kv => (c * kv.1, kv.2)) d)
        = skewness d) := by
  have hval' : |sumProbs (List.map (fun kv => (c * kv.1, kv.2)) d) - 1|
      ≤ tol := by rw [sumProbs_scale]; exact h
  have hvv : ex2Sum (List.map (fun kv => (c * kv.1, kv.2)) d)
      - evSum (List.map (fun kv => (c * kv.1, kv.2)) d) ^ 2
      = c ^ 2 * (ex2Sum d - evSum d ^ 2) := by
    rw [ex2Sum_scale, evSum_scale]; ring
  have hcast : ((c ^ 2 * (ex2Sum d - evSum d ^ 2) : ℚ) : ℝ)
      = (c : ℝ) ^ 2 * ((ex2Sum d - evSum d ^ 2 : ℚ) : ℝ) := by push_cast; ring
  have hσ' : Real.sqrt ((ex2Sum (List.map (fun kv => (c * kv.1, kv.2)) d)
      - evSum (List.map (fun kv => (c * kv.1, kv.2)) d) ^ 2 : ℚ) : ℝ)
      = |(c : ℝ)| * Real.sqrt ((ex2Sum d - evSum d ^ 2 : ℚ) : ℝ) := by
    rw [hvv, hcast, Real.sqrt_mul (sq_nonneg _), Real.sqrt_sq_eq_abs]
  have hcR : (c : ℝ) ≠ 0 := by exact_mod_cast hc
  have habs : |(c : ℝ)| ≠ 0 := abs_ne_zero.mpr hcR
  refine ⟨ex2Sum d - evSum d ^ 2,
    Real.sqrt ((ex2Sum d - evSum d ^ 2 : ℚ) : ℝ),
    variance_of_valid h, ?_, standard_deviation_of_valid h, ?_, ?_, ?_⟩
  · rw [variance_of_valid hval', hvv]
  · rw [standard_deviation_of_valid hval', hσ']
  · rw [kurtosis_of_valid hval', kurtosis_of_valid h, hσ']
    congr 1
    by_cases hσ0 : Real.sqrt ((ex2Sum d - evSum d ^ 2 : ℚ) : ℝ) = 0
    · rw [if_pos hσ0, if_pos (by rw [hσ0, mul_zero])]
    · rw [if_neg hσ0, if_neg (by
        intro hz
        exact hσ0 ((mul_eq_zero.mp hz).resolve_left habs))]
      rw [evSum_scale, fourthMomentSum_scale]
      rw [mul_pow, ← abs_pow]
      rw [abs_of_nonneg (a := (c : ℝ) ^ 4) (by positivity)]
      push_cast
      rw [mul_div_mul_left _ _ (by positivity : ((c : ℝ) ^ 4) ≠ 0)]
  · intro hcpos
    have hcRpos : (0 : ℝ) < (c : ℝ) := by exact_mod_cast hcpos
    rw [skewness_of_valid hval', skewness_of_valid h, hσ',
      abs_of_pos hcRpos]
    congr 1
    by_cases hσ0 : Real.sqrt ((ex2Sum d - evSum d ^ 2 : ℚ) : ℝ) = 0
    · rw [if_pos hσ0, if_pos (by rw [hσ0, mul_zero])]
    · rw [if_neg hσ0, if_neg (by
        intro hz
        exact hσ0 ((mul_eq_zero.mp hz).resolve_left hcR))]
      rw [evSum_scale, thirdMomentSum_scale]
      rw [mul_pow]
      push_cast
      rw [mul_div_mul_left _ _ (by positivity : ((c : ℝ) ^ 3) ≠ 0)]

/-- C8 witness: the amended scaling law instantiated at the distribution
`{1: 1/2, 3: 1/2}` and the constant `c = 2`. -/
theorem claim8_witness :
    ∃ v : ℚ, ∃ s : ℝ,
      variance [((1 : ℚ), (1/2 : ℚ)), (3, 1/2)] = .ok v ∧
      variance (List.map (fun kv => ((2 : ℚ) * kv.1, kv.2))
          [((1 : ℚ), (1/2 : ℚ)), (3, 1/2)]) = .ok ((2 : ℚ) ^ 2 * v) ∧
      standard_deviation [((1 : ℚ), (1/2 : ℚ)), (3, 1/2)] = .ok s ∧
      standard_deviation (List.map (fun kv => ((2 : ℚ) * kv.1, kv.2))
          [((1 : ℚ), (1/2 : ℚ)), (3, 1/2)]) = .ok (|((2 : ℚ) : ℝ)| * s) ∧
      kurtosis (List.map (fun kv => ((2 : ℚ) * kv.1, kv.2))
          [((1 : ℚ), (1/2 : ℚ)), (3, 1/2)])
        = kurtosis [((1 : ℚ), (1/2 : ℚ)), (3, 1/2)] ∧
      ((0 : ℚ) < 2 → skewness (List.map (fun kv => ((2 : ℚ) * kv.1, kv.2))
          [((1 : ℚ), (1/2 : ℚ)), (3, 1/2)])
        = skewness [((1 : ℚ), (1/2 : ℚ)), (3, 1/2)]) :=
  claim8_scaling_amended (by norm_num [sumProbs, tol]) (by norm_num)

/-- Dict lookup, idealised: the total probability the distribution assigns
to the outcome `x` (`0` when `x` is not a key). -/
def probAt (d : Dist) (x : ℚ) : ℚ :=
  (List.map (fun kv => if kv.1 = x then kv.2 else 0) d).sum

theorem probAt_cons (kv : ℚ × ℚ) (tl : Dist) (x : ℚ) :
    probAt (kv :: tl) x = (if kv.1 = x then kv.2 else 0) + probAt tl x := rfl

/-- Grouping an item-list sum by key: a weighted sum over the items equals
the corresponding sum over any finite set of outcomes containing all the
keys, weighted by `probAt`. -/
theorem weighted_sum_by_key (g : ℚ → ℚ) (S : Finset ℚ) :
    ∀ d : Dist, (∀ kv ∈ d, kv.1 ∈ S) →
      (List.map (fun kv => g kv.1 * kv.2) d).sum
        = ∑ x ∈ S, g x * probAt d x := by
  intro d
  induction d with
  | nil => intro _; simp [probAt]
  | cons kv tl ih =>
      intro hmem
      have hk : kv.1 ∈ S := hmem kv (List.mem_cons_self kv tl)
      have htl : ∀ kv' ∈ tl, kv'.1 ∈ S := fun kv' h' =>
        hmem kv' (List.mem_cons_of_mem kv h')
      simp only [List.map_cons, List.sum_cons, probAt_cons]
      rw [ih htl]
      simp only [mul_add, Finset.sum_add_distrib, mul_ite, mul_zero]
      rw [Finset.sum_ite_eq, if_pos hk]

/-- C9.  A valid distribution symmetric about its mean (the probability at
`mu + t` equals the probability at `mu - t` for every `t`) has skewness
exactly `0.0`: the third central moment vanishes by pairing each outcome
with its mirror image, and the `sigma == 0` branch also returns `0.0`. -/
theorem claim9_symmetric_skewness_zero {d : Dist}
    (h : |sumProbs d - 1| ≤ tol)
    (hsym : ∀ t : ℚ, probAt d (evSum d + t) = probAt d (evSum d - t)) :
    skewness d = .ok 0 := by
  rw [skewness_of_valid h]
  by_cases hσ : Real.sqrt ((ex2Sum d - evSum d ^ 2 : ℚ) : ℝ) = 0
  · rw [if_pos hσ]
  · rw [if_neg hσ]
    have hthird : thirdMomentSum d (evSum d) = 0 := by
      classical
      set μ := evSum d with hμ
      have hkey : ∀ x : ℚ, probAt d (2 * μ - x) = probAt d x := by
        intro x
        have hx := hsym (x - μ)
        have e1 : μ + (x - μ) = x := by ring
        have e2 : μ - (x - μ) = 2 * μ - x := by ring
        rw [e1, e2] at hx
        exact hx.symm
      set K := (List.map Prod.fst d).toFinset with hK
      set S := K ∪ K.image (fun x => 2 * μ - x) with hS
      have hmem : ∀ kv ∈ d, kv.1 ∈ S := by
        intro kv hkv
        apply Finset.mem_union_left
        rw [hK, List.mem_toFinset]
        exact List.mem_map_of_mem Prod.fst hkv
      have hgrp : thirdMomentSum d μ
          = ∑ x ∈ S, (x - μ) ^ 3 * probAt d x :=
        weighted_sum_by_key (fun x => (x - μ) ^ 3) S d hmem
      have hclosed : ∀ a ∈ S, 2 * μ - a ∈ S := by
        intro a ha
        rcases Finset.mem_union.mp ha with haK | haI
        · exact Finset.mem_union_right _ (Finset.mem_image.mpr ⟨a, haK, rfl⟩)
        · rcases Finset.mem_image.mp haI with ⟨y, hy, rfl⟩
          have hyy : 2 * μ - (2 * μ - y) = y := by ring
          rw [hyy]
          exact Finset.mem_union_left _ hy
      have hsum0 : ∑ x ∈ S, (x - μ) ^ 3 * probAt d x = 0 := by
        refine Finset.sum_involution (fun a _ => 2 * μ - a) ?_ ?_
          (fun a ha => hclosed a ha) ?_
        · intro a _
          rw [hkey a]
          ring
        · intro a _ hne heqa
          apply hne
          have heqa' : 2 * μ - a = a := heqa
          have haμ : a = μ := by linarith
          rw [haμ]
          simp
        · intro a _
          ring
      rw [hgrp, hsum0]
    rw [hthird]
    norm_num

/-- C9 witness: the symmetric distribution `{0: 1/2, 2: 1/2}` (mean 1)
has skewness `0.0`. -/
theorem claim9_witness :
    |sumProbs [((0 : ℚ), (1/2 : ℚ)), (2, 1/2)] - 1| ≤ tol ∧
    skewness [((0 : ℚ), (1/2 : ℚ)), (2, 1/2)] = .ok 0 := by
  have hval : |sumProbs [((0 : ℚ), (1/2 : ℚ)), (2, 1/2)] - 1| ≤ tol := by
    norm_num [sumProbs, tol]
  have hev : evSum [((0 : ℚ), (1/2 : ℚ)), (2, 1/2)] = 1 := by
    norm_num [evSum]
  refine ⟨hval, claim9_symmetric_skewness_zero hval ?_⟩
  intro t
  rw [hev]
  simp only [probAt, List.map_cons, List.map_nil, List.sum_cons, List.sum_nil]
  by_cases h1 : t = 1
  · subst h1; norm_num
  by_cases h2 : t = -1
  · subst h2; norm_num
  rw [if_neg (show ¬((0 : ℚ) = 1 + t) by intro hh; apply h2; linarith),
    if_neg (show ¬((2 : ℚ) = 1 + t) by intro hh; apply h1; linarith),
    if_neg (show ¬((0 : ℚ) = 1 - t) by intro hh; apply h1; linarith),
    if_neg (show ¬((2 : ℚ) = 1 - t) by intro hh; apply h2; linarith)]

end EVV
